import Mathlib

/-!
Shallow embedding of the whisky-club data pipeline:
the data loader of Data_Loading.py (load_whisky_data) and the derived-view
builders of whisky_report_generator.py (calculate_attendee_correlations,
find_largest_score_differences, the region-aggregate pipeline of
generate_personal_whisky_report, and the orchestrator's failure/cleanup
behaviour).

Modelling conventions:
  - a pandas DataFrame is a `List` of typed records, one structure per row;
  - numeric cells (scores, ids, prices, ...) are `ℚ` (the float arithmetic
    the code performs on them is exact on the values the claims are about);
  - a nullable cell (NaN) is an `Option`;
  - a pandas operation that raises (sort_values on an empty frame built
    from an empty record list has no such column and raises KeyError)
    is modelled by returning `none`.
-/

namespace Whisky

/-- One row of the Scores sheet: Whisky_ID, Attendee, Guest, Whisky_Score,
Meeting_Number.  Guest is nullable (blank cells read as NaN). -/
structure ScoreRec where
  whiskyId : ℚ
  attendee : String
  guest : Option ℚ
  score : ℚ
  meeting : ℚ
deriving DecidableEq

/-- One row of the Whiskies sheet after the usecols/dtype projection of
load_whisky_data: Whisky_ID, Whisky_Distillery, Whisky_Age_Corrected (nullable),
Whisky_Description, Whisky_Region, Whisky_ABV, Whisky_Price, Meeting_Number,
Whisky_Bottling. -/
structure WhiskyRec where
  id : ℚ
  distillery : String
  age : Option ℚ
  description : String
  region : String
  abv : ℚ
  price : ℚ
  meeting : ℚ
  bottling : String
deriving DecidableEq

/-- A Whiskies row after the two derived-column steps of load_whisky_data:
Whisky_OB = (Whisky_Bottling == 'OB') and Tasting_Position =
rank(method='first') of Whisky_ID within the Meeting_Number group;
Whisky_Bottling and Meeting_Number are dropped. -/
structure PrepWhisky where
  id : ℚ
  distillery : String
  age : Option ℚ
  description : String
  region : String
  abv : ℚ
  price : ℚ
  ob : Bool
  position : ℕ
deriving DecidableEq

/-- rank(method='first') of row (i, w) within its Meeting_Number group:
the 1-based position of w among rows of the same meeting, ordered by
Whisky_ID with ties broken by original row order. -/
def rankFirst (ws : List (ℕ × WhiskyRec)) (i : ℕ) (w : WhiskyRec) : ℕ :=
  ws.countP (fun p =>
    p.2.meeting = w.meeting ∧ (p.2.id < w.id ∨ (p.2.id = w.id ∧ p.1 ≤ i)))

/-- Index the rows of the Whiskies sheet with their 0-based row number. -/
def indexed (ws : List WhiskyRec) : List (ℕ × WhiskyRec) :=
  (List.range ws.length).zip ws

/-- The derived-column preparation of the Whiskies sheet
(Whisky_OB creation, Tasting_Position ranking, column drops). -/
def prepared (ws : List WhiskyRec) : List PrepWhisky :=
  (indexed ws).map (fun p =>
    { id := p.2.id, distillery := p.2.distillery, age := p.2.age,
      description := p.2.description, region := p.2.region, abv := p.2.abv,
      price := p.2.price, ob := p.2.bottling = "OB",
      position := rankFirst (indexed ws) p.1 p.2 })

/-- One row of the joined table (pd.merge(scores_df, whiskies_df,
on='Whisky_ID', how='left')).  Whisky-side columns are nullable: a score row
with no matching whisky gets NaN there.  Age_Missing only exists after the
fill_missing_age step; before it the field holds the default false. -/
structure Row where
  whiskyId : ℚ
  attendee : String
  guest : Option ℚ
  score : ℚ
  meeting : ℚ
  distillery : Option String
  age : Option ℚ
  description : Option String
  region : Option String
  abv : Option ℚ
  price : Option ℚ
  ob : Option Bool
  position : Option ℕ
  ageMissing : Bool := false
deriving DecidableEq

/-- Build a joined row from a score row and its (optional) whisky match. -/
def joinRow (s : ScoreRec) : Option PrepWhisky → Row
  | some w =>
    { whiskyId := s.whiskyId, attendee := s.attendee, guest := s.guest,
      score := s.score, meeting := s.meeting, distillery := some w.distillery,
      age := w.age, description := some w.description, region := some w.region,
      abv := some w.abv, price := some w.price, ob := some w.ob,
      position := some w.position }
  | none =>
    { whiskyId := s.whiskyId, attendee := s.attendee, guest := s.guest,
      score := s.score, meeting := s.meeting, distillery := none,
      age := none, description := none, region := none,
      abv := none, price := none, ob := none, position := none }

/-- The rows contributed by one score row in the left join: one row per
matching whisky row, or a single all-NaN-extended row when nothing matches. -/
def joinOne (ws : List PrepWhisky) (s : ScoreRec) : List Row :=
  match ws.filter (fun w => w.id = s.whiskyId) with
  | [] => [joinRow s none]
  | ms => ms.map (fun w => joinRow s (some w))

/-- pd.merge(scores_df, whiskies_df, on='Whisky_ID', how='left'). -/
def leftJoin (scores : List ScoreRec) (ws : List PrepWhisky) : List Row :=
  scores.flatMap (joinOne ws)

/-- The keyword arguments of load_whisky_data, plus guestCol recording
whether the Scores sheet has a Guest column at all (the code checks
'Guest' in data.columns). -/
structure LoadConfig where
  removeGuests : Bool
  guestCol : Bool
  removeUS : Bool
  removeThresh : ℚ
  pointscale : Bool
  fillMissingAge : Bool
  minWhiskiesPerRegion : ℕ
deriving DecidableEq

/-- data = data[data['Guest'] != 1], applied only when remove_guests is set
and the Guest column exists.  A NaN guest cell compares unequal to 1 and is
kept. -/
def guestFilter (removeGuests guestCol : Bool) (l : List Row) : List Row :=
  if removeGuests && guestCol then l.filter (fun r => decide (r.guest ≠ some 1))
  else l

/-- data = data[data['Whisky_Region'] != 'USA'] when remove_USwhiskies is set.
A NaN region (unmatched join) compares unequal to 'USA' and is kept. -/
def usFilter (removeUS : Bool) (l : List Row) : List Row :=
  if removeUS then l.filter (fun r => decide (r.region ≠ some "USA")) else l

/-- data.groupby('Whisky_ID')['Whisky_Score'].mean() evaluated at one id. -/
def meanScoreFor (l : List Row) (wid : ℚ) : ℚ :=
  let g := (l.filter (fun r => decide (r.whiskyId = wid))).map (fun r => r.score)
  g.sum / (g.length : ℚ)

/-- The outlier-removal step: drop rows of whiskies whose mean score is below
the threshold, then drop individual rows scoring below the threshold.
Active only when the threshold is positive. -/
def outlierFilter (thresh : ℚ) (l : List Row) : List Row :=
  if 0 < thresh then
    (l.filter (fun r => decide (thresh ≤ meanScoreFor l r.whiskyId))).filter
      (fun r => decide (thresh ≤ r.score))
  else l

/-- data['Whisky_Score'] = (data['Whisky_Score'] - remove_thresh) * 10
applied to a single row. -/
def rescaleRow (thresh : ℚ) (r : Row) : Row :=
  { r with score := (r.score - thresh) * 10 }

/-- The pointscale rescaling step. -/
def rescale (pointscale : Bool) (thresh : ℚ) (l : List Row) : List Row :=
  if pointscale then l.map (rescaleRow thresh) else l

/-- Keep the first occurrence of every element (pandas unique() order). -/
def dedupFirst : List String → List String
  | [] => []
  | a :: rest => a :: dedupFirst (rest.filter (fun b => decide (b ≠ a)))
termination_by l => l.length
decreasing_by
  exact Nat.lt_succ_of_le (List.length_filter_le _ _)

/-- data.groupby('Whisky_Region')['Whisky_ID'].nunique() evaluated at one
region. -/
def regionNunique (l : List Row) (rg : String) : ℕ :=
  (((l.filter (fun r => decide (r.region = some rg))).map
    (fun r => r.whiskyId)).dedup).length

/-- Row predicate of the region filter: the row's region exists and belongs
to valid_regions (distinct-whisky count at least the minimum). -/
def regionKeep (minWhiskies : ℕ) (l : List Row) (r : Row) : Bool :=
  match r.region with
  | some rg => decide (minWhiskies ≤ regionNunique l rg)
  | none => false

/-- The minimum-whiskies-per-region filter.  Rows with a NaN region are
dropped when the filter is active: groupby drops NaN keys, so a NaN region
is never in valid_regions and isin returns False for it. -/
def regionFilter (minWhiskies : ℕ) (l : List Row) : List Row :=
  if 0 < minWhiskies then l.filter (regionKeep minWhiskies l) else l

/-- The fill_missing_age step on one row: Age_Missing :=
Whisky_Age_Corrected.isna(), then fillna(-1). -/
def fillRow (r : Row) : Row :=
  { r with ageMissing := r.age.isNone, age := some (r.age.getD (-1)) }

/-- The fill_missing_age step. -/
def fillAge (fill : Bool) (l : List Row) : List Row :=
  if fill then l.map fillRow else l

/-- load_whisky_data up to but excluding the fill_missing_age step. -/
def cleanNoFill (cfg : LoadConfig) (scores : List ScoreRec)
    (whiskies : List WhiskyRec) : List Row :=
  regionFilter cfg.minWhiskiesPerRegion
    (rescale cfg.pointscale cfg.removeThresh
      (outlierFilter cfg.removeThresh
        (usFilter cfg.removeUS
          (guestFilter cfg.removeGuests cfg.guestCol
            (leftJoin scores (prepared whiskies))))))

/-- load_whisky_data of Data_Loading.py, as a function of the two sheets
(file reading abstracted away): left join then the optional transform chain
in source order. -/
def load_whisky_data (cfg : LoadConfig) (scores : List ScoreRec)
    (whiskies : List WhiskyRec) : List Row :=
  fillAge cfg.fillMissingAge (cleanNoFill cfg scores whiskies)

/-! ### Sorting (model of DataFrame.sort_values / nlargest / nsmallest) -/

/-- Insert an element into a list, before the first element it relates to. -/
def insertBy (le : α → α → Bool) (a : α) : List α → List α
  | [] => [a]
  | b :: t => if le a b then a :: b :: t else b :: insertBy le a t

/-- Stable insertion sort by a boolean comparator. -/
def sortBy (le : α → α → Bool) : List α → List α
  | [] => []
  | a :: t => insertBy le a (sortBy le t)

/-! ### calculate_attendee_correlations -/

/-- data[data['Attendee'] == name] (current_focus / target frame). -/
def personRows (data : List Row) (name : String) : List Row :=
  data.filter (fun r => decide (r.attendee = name))

/-- data[data['Attendee'] == p][['Whisky_ID', 'Whisky_Score']]. -/
def scoresOf (data : List Row) (p : String) : List (ℚ × ℚ) :=
  (data.filter (fun r => decide (r.attendee = p))).map
    (fun r => (r.whiskyId, r.score))

/-- pd.merge(target, other, on='Whisky_ID') (inner): for each target score
row, each same-id other score row, paired as (target score, other score). -/
def innerJoinScores (target other : List (ℚ × ℚ)) : List (ℚ × ℚ) :=
  target.flatMap (fun x =>
    (other.filter (fun y => decide (y.1 = x.1))).map (fun y => (x.2, y.2)))

/-- The common-whiskies frame of the correlation loop for one other attendee. -/
def commonPairs (data : List Row) (name oa : String) : List (ℚ × ℚ) :=
  innerJoinScores (scoresOf data name) (scoresOf data oa)

/-- Pearson product-moment correlation of a list of (x, y) pairs, in the
exact representation some (sxy, sxx * syy) meaning sxy / sqrt (sxx * syy);
none models the NaN that pandas Series.corr yields on an empty overlap or a
zero-variance column. -/
def pearson (ps : List (ℚ × ℚ)) : Option (ℚ × ℚ) :=
  if ps.length = 0 then none else
  let n : ℚ := (ps.length : ℚ)
  let xbar := (ps.map (fun p => p.1)).sum / n
  let ybar := (ps.map (fun p => p.2)).sum / n
  let sxx := (ps.map (fun p => (p.1 - xbar) ^ 2)).sum
  let syy := (ps.map (fun p => (p.2 - ybar) ^ 2)).sum
  let sxy := (ps.map (fun p => (p.1 - xbar) * (p.2 - ybar))).sum
  if sxx = 0 ∨ syy = 0 then none else some (sxy, sxx * syy)

/-- One output row of calculate_attendee_correlations.  corr uses the exact
Pearson representation of `pearson`. -/
structure CorrRow where
  attendee : String
  corr : Option (ℚ × ℚ)
  common : ℕ
deriving DecidableEq

/-- Signed-square sort key of a represented correlation value (q, d):
monotone image of q / sqrt d whenever d is positive. -/
def skey (x : ℚ × ℚ) : ℚ :=
  if 0 ≤ x.1 then x.1 ^ 2 / x.2 else -(x.1 ^ 2 / x.2)

/-- Comparator for sort_values('Correlation', ascending=False):
larger correlations first, NaN rows last (na_position='last'). -/
def corrDescLe (a b : CorrRow) : Bool :=
  match a.corr, b.corr with
  | none, none => true
  | none, some _ => false
  | some _, none => true
  | some x, some y => decide (skey y ≤ skey x)

/-- data[data['Attendee'] != name]['Attendee'].unique(): first-occurrence
order. -/
def otherAttendees (data : List Row) (name : String) : List String :=
  dedupFirst ((data.filter (fun r => decide (r.attendee ≠ name))).map
    (fun r => r.attendee))

/-- One iteration of the correlation loop: the row appended for one other
attendee, or none when the common-whisky overlap misses the minimum. -/
def corrRowFor (data : List Row) (name : String) (minCommon : ℕ)
    (oa : String) : Option CorrRow :=
  if minCommon ≤ (commonPairs data name oa).length then
    some ⟨oa, pearson (commonPairs data name oa),
      (commonPairs data name oa).length⟩
  else none

/-- The correlation record list before sorting. -/
def corrRows (data : List Row) (name : String) (minCommon : ℕ) :
    List CorrRow :=
  (otherAttendees data name).filterMap (corrRowFor data name minCommon)

/-- calculate_attendee_correlations of whisky_report_generator.py.
Returns none when no other attendee reaches the overlap minimum: the code
then builds a DataFrame from an empty list and sort_values raises KeyError. -/
def calculate_attendee_correlations (data : List Row) (name : String)
    (minCommon : ℕ) : Option (List CorrRow) :=
  if (corrRows data name minCommon).isEmpty then none
  else some (sortBy corrDescLe (corrRows data name minCommon))

/-! ### find_largest_score_differences -/

/-- One output row of find_largest_score_differences. -/
structure DiffRow where
  whiskyId : ℚ
  description : Option String
  distillery : Option String
  age : Option ℚ
  other : String
  targetScore : ℚ
  otherScore : ℚ
  absDiff : ℚ
deriving DecidableEq

/-- The inner max-search loop: running (max_diff, max_diff_row) over the
other attendees' rows, updating only on a strictly larger difference. -/
def maxDiffFold (ts : ℚ) (others : List Row) : ℚ × Option Row :=
  others.foldl (fun p o =>
    if p.1 < |ts - o.score| then (|ts - o.score|, some o) else p) (0, none)

/-- Right-recursive characterisation of `maxDiffFold` (earlier rows win
ties); used only in proofs about the loop. -/
def selectMax (ts : ℚ) : List Row → ℚ × Option Row
  | [] => (0, none)
  | o :: rest =>
    if (selectMax ts rest).1 ≤ |ts - o.score| ∧ 0 < |ts - o.score| then
      (|ts - o.score|, some o)
    else selectMax ts rest

/-- data[(data['Attendee'] != attendee_name) & (data['Whisky_ID'] ==
whisky_id)]: the other attendees' rows for one whisky. -/
def othersFor (data : List Row) (name : String) (wid : ℚ) : List Row :=
  data.filter (fun r =>
    decide (r.attendee ≠ name) && decide (r.whiskyId = wid))

/-- One iteration of the outer loop of find_largest_score_differences:
the difference rows (zero or one) contributed by target score row t. -/
def diffsFor (data : List Row) (name : String) (t : Row) : List DiffRow :=
  match ((personRows data name).filter
      (fun r => decide (r.whiskyId = t.whiskyId))).head? with
  | none => []
  | some t0 =>
    match maxDiffFold t0.score (othersFor data name t.whiskyId) with
    | (m, some o) =>
      if 0 < m then
        [{ whiskyId := t.whiskyId, description := o.description,
           distillery := o.distillery, age := o.age, other := o.attendee,
           targetScore := t0.score, otherScore := o.score, absDiff := m }]
      else []
    | (_, none) => []

/-- find_largest_score_differences of whisky_report_generator.py.  The outer
loop runs once per row of the target's score frame (so once per score row,
not per distinct whisky); target_score is taken from the first target row
with that id (iloc[0]).  Returns none when no difference row is produced:
sort_values on the columnless empty DataFrame raises KeyError. -/
def find_largest_score_differences (data : List Row) (name : String) :
    Option (List DiffRow) :=
  if ((personRows data name).flatMap (diffsFor data name)).isEmpty then none
  else some (sortBy (fun a b => decide (b.absDiff ≤ a.absDiff))
    ((personRows data name).flatMap (diffsFor data name)))

/-! ### Region aggregates of generate_personal_whisky_report -/

/-- One row of the grouped region frame: region, mean score, row count. -/
structure RegionAgg where
  region : String
  avg : ℚ
  cnt : ℕ
deriving DecidableEq

/-- current_focus.groupby('Whisky_Region').agg(mean, count): one aggregate
row per region occurring in the rows (NaN regions are dropped by groupby). -/
def regionGroups (l : List Row) : List RegionAgg :=
  (dedupFirst (l.filterMap (fun r => r.region))).map (fun rg =>
    let g := l.filter (fun r => decide (r.region = some rg))
    ⟨rg, ((g.map (fun r => r.score)).sum) / (g.length : ℚ), g.length⟩)

/-- top_regions = grouped.sort_values('whisky_count', ascending=False)
.head(10). -/
def topRegionsPre (data : List Row) (name : String) : List RegionAgg :=
  (sortBy (fun a b => decide (b.cnt ≤ a.cnt))
    (regionGroups (personRows data name))).take 10

/-- filtered_regions = top_regions[top_regions['whisky_count'] >
min_distillery_count]. -/
def filteredRegions (data : List Row) (name : String) (minCount : ℕ) :
    List RegionAgg :=
  (topRegionsPre data name).filter (fun g => decide (minCount < g.cnt))

/-- top_3_regions = filtered_regions.nlargest(3, 'avg_score'). -/
def top3Regions (data : List Row) (name : String) (minCount : ℕ) :
    List RegionAgg :=
  (sortBy (fun a b => decide (b.avg ≤ a.avg))
    (filteredRegions data name minCount)).take 3

/-- bottom_3_regions = filtered_regions.nsmallest(3, 'avg_score'). -/
def bottom3Regions (data : List Row) (name : String) (minCount : ℕ) :
    List RegionAgg :=
  (sortBy (fun a b => decide (a.avg ≤ b.avg))
    (filteredRegions data name minCount)).take 3

/-! ### generate_personal_whisky_report: failure paths and chart cleanup -/

/-- The error outcomes of a report invocation (the code raises ValueError or
lets a pandas KeyError escape; both are caught by the outermost handler
which prints and returns None). -/
inductive GenError
  | loadFailed
  | personNotFound
  | pipelineError
deriving DecidableEq

instance {ε α : Type _} [DecidableEq ε] [DecidableEq α] :
    DecidableEq (Except ε α) := fun a b =>
  match a, b with
  | .error e, .error f =>
    if h : e = f then .isTrue (by rw [h])
    else .isFalse (fun hh => h (Except.error.inj hh))
  | .error _, .ok _ => .isFalse (fun hh => Except.noConfusion hh)
  | .ok _, .error _ => .isFalse (fun hh => Except.noConfusion hh)
  | .ok x, .ok y =>
    if h : x = y then .isTrue (by rw [h])
    else .isFalse (fun hh => h (Except.ok.inj hh))

/-- The three temporary chart image files, in creation order. -/
def chartFiles : List String :=
  ["trend_chart.png", "distillery_chart.png", "region_chart.png"]

/-- The configuration generate_personal_whisky_report passes to
load_whisky_data (all keyword arguments spelled at the call site). -/
def generatorConfig (guestCol : Bool) : LoadConfig :=
  { removeGuests := true, guestCol := guestCol, removeUS := false,
    removeThresh := 0, pointscale := false, fillMissingAge := true,
    minWhiskiesPerRegion := 0 }

/-- f-string output filename of the report. -/
def outputName (name : String) : String :=
  "whisky_report_" ++ (name.replace " " "_").toLower ++ ".pdf"

/-- The control skeleton of generate_personal_whisky_report: load, check the
attendee has rows, create the three chart files, run the correlation and
difference analyses (each can raise), and on success write the PDF and
remove the chart files.  The result pairs the outcome with the list of
temporary chart files still existing on disk afterwards — the except
handler only prints, so a failure after chart creation leaves all three. -/
def generate_personal_whisky_report (filePresent guestCol : Bool)
    (scores : List ScoreRec) (whiskies : List WhiskyRec) (name : String) :
    Except GenError String × List String :=
  if filePresent then
    if (personRows (load_whisky_data (generatorConfig guestCol) scores whiskies)
        name).length = 0 then
      (.error .personNotFound, [])
    else
      match calculate_attendee_correlations
          (load_whisky_data (generatorConfig guestCol) scores whiskies) name 50 with
      | none => (.error .pipelineError, chartFiles)
      | some _ =>
        match find_largest_score_differences
            (load_whisky_data (generatorConfig guestCol) scores whiskies) name with
        | none => (.error .pipelineError, chartFiles)
        | some _ => (.ok (outputName name), [])
  else (.error .loadFailed, [])

/-! ### Interpretation helpers used only in theorem statements -/

/-- The real number represented by a `pearson` value (q, d): q / sqrt d. -/
noncomputable def toR (p : ℚ × ℚ) : ℝ :=
  (p.1 : ℝ) / Real.sqrt (p.2 : ℝ)

/-- a may precede b in a frame sorted descending by correlation:
NaN rows come last; among numeric rows the real correlation values are
non-increasing. -/
def corrAfter (a b : CorrRow) : Prop :=
  match a.corr, b.corr with
  | _, none => True
  | none, some _ => False
  | some x, some y => toR y ≤ toR x

/-- A fully populated joined row, used for concrete test tables. -/
def sampleRow (wid : ℚ) (p : String) (s : ℚ) : Row :=
  { whiskyId := wid, attendee := p, guest := none, score := s, meeting := 1,
    distillery := some "Dist", age := some 10, description := some "desc",
    region := some "Islay", abv := some (2/5), price := some 80,
    ob := some true, position := some 1 }

/-! ## Sorting infrastructure lemmas -/

theorem perm_insertBy {α : Type _} (le : α → α → Bool) (a : α) (l : List α) :
    (insertBy le a l).Perm (a :: l) := by
  induction l with
  | nil => exact List.Perm.refl _
  | cons b t ih =>
    by_cases h : le a b = true
    · simp [insertBy, h]
    · simp only [insertBy, h, if_false, Bool.false_eq_true]
      exact (ih.cons b).trans (List.Perm.swap a b t)

theorem perm_sortBy {α : Type _} (le : α → α → Bool) (l : List α) :
    (sortBy le l).Perm l := by
  induction l with
  | nil => exact List.Perm.refl _
  | cons a t ih => exact (perm_insertBy le a (sortBy le t)).trans (ih.cons a)

theorem mem_sortBy {α : Type _} {le : α → α → Bool} {l : List α} {x : α} :
    x ∈ sortBy le l ↔ x ∈ l :=
  (perm_sortBy le l).mem_iff

theorem mem_insertBy {α : Type _} {le : α → α → Bool} {a : α} {l : List α}
    {x : α} : x ∈ insertBy le a l ↔ x = a ∨ x ∈ l := by
  rw [(perm_insertBy le a l).mem_iff, List.mem_cons]

theorem pairwise_insertBy {α : Type _} {le : α → α → Bool}
    (htot : ∀ x y, le x y = true ∨ le y x = true)
    (htrans : ∀ x y z, le x y = true → le y z = true → le x z = true)
    {a : α} {l : List α} (h : l.Pairwise (fun x y => le x y = true)) :
    (insertBy le a l).Pairwise (fun x y => le x y = true) := by
  induction l with
  | nil => simp [insertBy]
  | cons b t ih =>
    rcases List.pairwise_cons.mp h with ⟨hb, ht⟩
    by_cases hab : le a b = true
    · simp only [insertBy, hab, if_true]
      refine List.pairwise_cons.mpr ⟨?_, h⟩
      intro x hx
      rcases List.mem_cons.mp hx with rfl | hx
      · exact hab
      · exact htrans a b x hab (hb x hx)
    · simp only [insertBy, hab, if_false, Bool.false_eq_true]
      refine List.pairwise_cons.mpr ⟨?_, ih ht⟩
      intro x hx
      rcases mem_insertBy.mp hx with rfl | hx
      · rcases htot x b with h' | h'
        · exact absurd h' hab
        · exact h'
      · exact hb x hx

theorem sorted_sortBy {α : Type _} (le : α → α → Bool)
    (htot : ∀ x y, le x y = true ∨ le y x = true)
    (htrans : ∀ x y z, le x y = true → le y z = true → le x z = true)
    (l : List α) : (sortBy le l).Pairwise (fun x y => le x y = true) := by
  induction l with
  | nil => simp [sortBy]
  | cons a t ih => exact pairwise_insertBy htot htrans ih

/-- Elements kept by `take n` of a sorted list dominate the dropped ones. -/
theorem sorted_take_dominates {α : Type _} {le : α → α → Bool} {l : List α}
    (h : l.Pairwise (fun x y => le x y = true)) (n : ℕ) :
    ∀ x ∈ l.take n, ∀ y ∈ l, y ∉ l.take n → le x y = true := by
  intro x hx y hy hyn
  rw [← List.take_append_drop n l] at h
  have h' := (List.pairwise_append.mp h).2.2
  refine h' x hx y ?_
  rw [← List.take_append_drop n l] at hy
  rcases List.mem_append.mp hy with h'' | h''
  · exact absurd h'' hyn
  · exact h''

/-! ## C1: the left join preserves the score-row count -/

theorem prepared_ids (ws : List WhiskyRec) :
    (prepared ws).map (fun w => w.id) = ws.map (fun w => w.id) := by
  unfold prepared indexed
  rw [List.map_map]
  have hz : List.map Prod.snd ((List.range ws.length).zip ws) = ws :=
    List.map_snd_zip _ _ (by simp)
  calc ((List.range ws.length).zip ws).map _
      = (((List.range ws.length).zip ws).map Prod.snd).map (fun w => w.id) := by
        rw [List.map_map]; rfl
    _ = ws.map (fun w => w.id) := by rw [hz]

theorem length_filter_id_le_one {l : List PrepWhisky}
    (h : (l.map (fun w => w.id)).Nodup) (v : ℚ) :
    (l.filter (fun w => decide (w.id = v))).length ≤ 1 := by
  induction l with
  | nil => simp
  | cons w t ih =>
    rw [List.map_cons, List.nodup_cons] at h
    by_cases hw : w.id = v
    · have ht : t.filter (fun w => decide (w.id = v)) = [] := by
        rw [List.filter_eq_nil_iff]
        intro u hu
        simp only [decide_eq_true_eq]
        intro huv
        exact h.1 (by rw [hw, ← huv]; exact List.mem_map_of_mem _ hu)
      simp [List.filter_cons, hw, ht]
    · simpa [List.filter_cons, hw] using ih h.2

theorem joinOne_length {ws : List PrepWhisky} {s : ScoreRec}
    (h : (ws.filter (fun w => decide (w.id = s.whiskyId))).length ≤ 1) :
    (joinOne ws s).length = 1 := by
  unfold joinOne
  rcases hf : ws.filter (fun w => decide (w.id = s.whiskyId)) with _ | ⟨w, t⟩
  · rw [hf]; rfl
  · rw [hf] at h ⊢
    rcases t with _ | ⟨w', t'⟩
    · rfl
    · simp at h

theorem leftJoin_length {scores : List ScoreRec} {ws : List PrepWhisky}
    (h : ∀ v, (ws.filter (fun w => decide (w.id = v))).length ≤ 1) :
    (leftJoin scores ws).length = scores.length := by
  induction scores with
  | nil => rfl
  | cons s t ih =>
    unfold leftJoin at ih ⊢
    rw [List.flatMap_cons, List.length_append, ih, joinOne_length (h s.whiskyId)]
    simp [Nat.add_comm]

/-- Claim C1: the left join of scores onto item metadata by item identifier
neither drops nor duplicates any score row, provided the item identifier is
unique in the item record set; consequently with every optional transform
disabled load_whisky_data returns exactly one row per raw score row. -/
theorem c1_left_join_preserves_score_count (scores : List ScoreRec)
    (whiskies : List WhiskyRec)
    (huniq : (whiskies.map (fun w => w.id)).Nodup) :
    (leftJoin scores (prepared whiskies)).length = scores.length ∧
    (load_whisky_data ⟨false, false, false, 0, false, false, 0⟩ scores
        whiskies).length = scores.length := by
  have hids : ((prepared whiskies).map (fun w => w.id)).Nodup := by
    rw [prepared_ids]; exact huniq
  have hjoin : (leftJoin scores (prepared whiskies)).length = scores.length :=
    leftJoin_length (fun v => length_filter_id_le_one hids v)
  refine ⟨hjoin, ?_⟩
  simpa [load_whisky_data, cleanNoFill, fillAge, regionFilter, rescale,
    outlierFilter, usFilter, guestFilter] using hjoin

/-- Witness for C1 at a concrete input. -/
theorem c1_left_join_preserves_score_count_witness :
    (([⟨1, "Dist", some 10, "desc", "Islay", 2/5, 80, 1, "OB"⟩] :
        List WhiskyRec).map (fun w => w.id)).Nodup ∧
    (leftJoin [⟨1, "A", none, 8, 1⟩, ⟨2, "B", none, 6, 1⟩]
      (prepared [⟨1, "Dist", some 10, "desc", "Islay", 2/5, 80, 1, "OB"⟩])).length
      = 2 :=
  ⟨by decide,
    (c1_left_join_preserves_score_count
      [⟨1, "A", none, 8, 1⟩, ⟨2, "B", none, 6, 1⟩]
      [⟨1, "Dist", some 10, "desc", "Islay", 2/5, 80, 1, "OB"⟩] (by decide)).1⟩

/-! ## Loader step lemmas shared by C2, C4, C5 -/

theorem mem_of_mem_guestFilter {rg gc : Bool} {l : List Row} {r : Row}
    (h : r ∈ guestFilter rg gc l) : r ∈ l := by
  unfold guestFilter at h
  split at h
  · exact (List.mem_filter.mp h).1
  · exact h

theorem mem_of_mem_usFilter {ru : Bool} {l : List Row} {r : Row}
    (h : r ∈ usFilter ru l) : r ∈ l := by
  unfold usFilter at h
  split at h
  · exact (List.mem_filter.mp h).1
  · exact h

theorem mem_of_mem_outlierFilter {T : ℚ} {l : List Row} {r : Row}
    (h : r ∈ outlierFilter T l) : r ∈ l := by
  unfold outlierFilter at h
  split at h
  · exact (List.mem_filter.mp (List.mem_filter.mp h).1).1
  · exact h

theorem mem_of_mem_regionFilter {m : ℕ} {l : List Row} {r : Row}
    (h : r ∈ regionFilter m l) : r ∈ l := by
  unfold regionFilter at h
  split at h
  · exact (List.mem_filter.mp h).1
  · exact h

theorem outlierFilter_score {T : ℚ} {l : List Row} {r : Row} (hT : 0 < T)
    (h : r ∈ outlierFilter T l) : T ≤ r.score := by
  unfold outlierFilter at h
  rw [if_pos hT] at h
  exact of_decide_eq_true (List.mem_filter.mp h).2

/-- A row of the fill step comes from a pre-fill row with the same score,
whisky id, attendee and region. -/
theorem mem_fillAge_provenance {f : Bool} {l : List Row} {r : Row}
    (h : r ∈ fillAge f l) :
    ∃ r' ∈ l, r.score = r'.score ∧ r.whiskyId = r'.whiskyId ∧
      r.attendee = r'.attendee := by
  unfold fillAge at h
  split at h
  · rcases List.mem_map.mp h with ⟨r', hr', rfl⟩
    exact ⟨r', hr', rfl, rfl, rfl⟩
  · exact ⟨r, h, rfl, rfl, rfl⟩

/-- Every joined row carries the attendee, whisky id and score of one of the
raw score rows. -/
theorem mem_leftJoin_provenance {scores : List ScoreRec}
    {ws : List PrepWhisky} {r : Row} (h : r ∈ leftJoin scores ws) :
    ∃ s ∈ scores, r.attendee = s.attendee ∧ r.whiskyId = s.whiskyId ∧
      r.score = s.score := by
  rcases List.mem_flatMap.mp h with ⟨s, hs, hr⟩
  refine ⟨s, hs, ?_⟩
  unfold joinOne at hr
  split at hr
  · rcases List.mem_singleton.mp hr with rfl
    exact ⟨rfl, rfl, rfl⟩
  · rcases List.mem_map.mp hr with ⟨w, _, rfl⟩
    exact ⟨rfl, rfl, rfl⟩

theorem sum_ge_mul_length {T : ℚ} :
    ∀ {g : List ℚ}, (∀ x ∈ g, T ≤ x) → T * (g.length : ℚ) ≤ g.sum := by
  intro g
  induction g with
  | nil => simp
  | cons x t ih =>
    intro h
    have hx := h x (List.mem_cons_self x t)
    have ht := ih (fun y hy => h y (List.mem_cons_of_mem x hy))
    simp only [List.length_cons, List.sum_cons]
    push_cast
    linarith

theorem le_sum_div_length {T : ℚ} {g : List ℚ} (hne : g ≠ [])
    (h : ∀ x ∈ g, T ≤ x) : T ≤ g.sum / (g.length : ℚ) := by
  have hlen : (0 : ℚ) < (g.length : ℚ) := by
    exact_mod_cast List.length_pos.mpr hne
  rw [le_div_iff₀ hlen]
  exact sum_ge_mul_length h

/-! ## C2: the outlier-removal guarantee -/

/-- Counterexample to claim C2 as stated: with outlier removal enabled at
threshold 7 and rescaling also enabled, the returned table contains a row
whose score (5, the rescaled 7.5) is below the threshold. -/
theorem c2_counterexample :
    (0 : ℚ) < 7 ∧
    ¬ (∀ r ∈ load_whisky_data ⟨false, false, false, 7, true, false, 0⟩
          [⟨1, "A", none, 15/2, 1⟩]
          [⟨1, "Dist", some 10, "desc", "Islay", 2/5, 80, 1, "OB"⟩],
        (7 : ℚ) ≤ r.score) := by
  constructor
  · decide
  · exact of_decide_eq_true (by with_unfolding_all rfl)

/-- Claim C2 (amended: rescaling disabled): with outlier removal enabled at
threshold T and pointscale off, every returned row's score is at least T and
every returned item's mean score over its remaining rows is at least T. -/
theorem c2_outlier_removal_threshold (rg gc ru fill : Bool) (T : ℚ)
    (minr : ℕ) (scores : List ScoreRec) (whiskies : List WhiskyRec)
    (hT : 0 < T) :
    (∀ r ∈ load_whisky_data ⟨rg, gc, ru, T, false, fill, minr⟩ scores whiskies,
      T ≤ r.score) ∧
    (∀ r ∈ load_whisky_data ⟨rg, gc, ru, T, false, fill, minr⟩ scores whiskies,
      T ≤ meanScoreFor
        (load_whisky_data ⟨rg, gc, ru, T, false, fill, minr⟩ scores whiskies)
        r.whiskyId) := by
  have hscore : ∀ r ∈ load_whisky_data ⟨rg, gc, ru, T, false, fill, minr⟩
      scores whiskies, T ≤ r.score := by
    intro r hr
    rcases mem_fillAge_provenance hr with ⟨r', hr', hsc, _, _⟩
    rw [hsc]
    have hr'' := mem_of_mem_regionFilter hr'
    simp only [cleanNoFill, rescale, if_neg Bool.false_ne_true] at hr''
    exact outlierFilter_score hT hr''
  refine ⟨hscore, ?_⟩
  intro r hr
  unfold meanScoreFor
  apply le_sum_div_length
  · intro hnil
    rw [List.map_eq_nil_iff, List.filter_eq_nil_iff] at hnil
    exact hnil r hr (by simp)
  · intro x hx
    rcases List.mem_map.mp hx with ⟨r', hr', rfl⟩
    exact hscore r' (List.mem_filter.mp hr').1

/-- Witness for C2 at a concrete input. -/
theorem c2_outlier_removal_threshold_witness :
    (0 : ℚ) < 7 ∧
    ((∀ r ∈ load_whisky_data ⟨false, false, false, 7, false, false, 0⟩
        [⟨1, "A", none, 15/2, 1⟩]
        [⟨1, "Dist", some 10, "desc", "Islay", 2/5, 80, 1, "OB"⟩],
      (7 : ℚ) ≤ r.score) ∧
     (∀ r ∈ load_whisky_data ⟨false, false, false, 7, false, false, 0⟩
        [⟨1, "A", none, 15/2, 1⟩]
        [⟨1, "Dist", some 10, "desc", "Islay", 2/5, 80, 1, "OB"⟩],
      (7 : ℚ) ≤ meanScoreFor
        (load_whisky_data ⟨false, false, false, 7, false, false, 0⟩
          [⟨1, "A", none, 15/2, 1⟩]
          [⟨1, "Dist", some 10, "desc", "Islay", 2/5, 80, 1, "OB"⟩])
        r.whiskyId)) :=
  ⟨by decide,
    c2_outlier_removal_threshold false false false false 7 0
      [⟨1, "A", none, 15/2, 1⟩]
      [⟨1, "Dist", some 10, "desc", "Islay", 2/5, 80, 1, "OB"⟩] (by decide)⟩

/-! ## C4: rescaling is exactly (score - T) * 10 -/

theorem regionNunique_map_rescaleRow (T : ℚ) (l : List Row) (rg : String) :
    regionNunique (l.map (rescaleRow T)) rg = regionNunique l rg := by
  unfold regionNunique
  rw [List.filter_map, List.map_map]
  rfl

theorem rescaleRow_region (T : ℚ) (r : Row) :
    (rescaleRow T r).region = r.region := rfl

theorem regionKeep_map_rescaleRow (m : ℕ) (T : ℚ) (l : List Row) (r : Row) :
    regionKeep m (l.map (rescaleRow T)) (rescaleRow T r) = regionKeep m l r := by
  unfold regionKeep
  rw [rescaleRow_region]
  cases r.region with
  | none => rfl
  | some rg => simp [regionNunique_map_rescaleRow]

theorem regionFilter_map_rescaleRow (m : ℕ) (T : ℚ) (l : List Row) :
    regionFilter m (l.map (rescaleRow T))
      = (regionFilter m l).map (rescaleRow T) := by
  unfold regionFilter
  by_cases hm : 0 < m
  · rw [if_pos hm, if_pos hm, List.filter_map]
    congr 1
    apply List.filter_congr
    intro r _
    exact regionKeep_map_rescaleRow m T l r
  · rw [if_neg hm, if_neg hm]

theorem fillAge_map_rescaleRow (f : Bool) (T : ℚ) (l : List Row) :
    fillAge f (l.map (rescaleRow T)) = (fillAge f l).map (rescaleRow T) := by
  unfold fillAge
  cases f
  · rfl
  · show (l.map (rescaleRow T)).map fillRow = (l.map fillRow).map (rescaleRow T)
    rw [List.map_map, List.map_map]
    rfl

/-- Claim C4: with rescaling enabled, the returned table is exactly the
pointscale-disabled table with every score replaced by (score - T) * 10,
and every score of the pointscale-disabled table is the original raw score
of its score row (earlier transforms only drop rows). -/
theorem c4_rescaling_formula (rg gc ru fill : Bool) (T : ℚ) (minr : ℕ)
    (scores : List ScoreRec) (whiskies : List WhiskyRec) :
    load_whisky_data ⟨rg, gc, ru, T, true, fill, minr⟩ scores whiskies
      = (load_whisky_data ⟨rg, gc, ru, T, false, fill, minr⟩ scores
          whiskies).map (rescaleRow T) ∧
    (∀ r ∈ load_whisky_data ⟨rg, gc, ru, T, false, fill, minr⟩ scores whiskies,
      ∃ s ∈ scores, r.attendee = s.attendee ∧ r.whiskyId = s.whiskyId ∧
        r.score = s.score) := by
  constructor
  · show fillAge fill (regionFilter minr (rescale true T _))
      = (fillAge fill (regionFilter minr (rescale false T _))).map (rescaleRow T)
    rw [show rescale true T (outlierFilter T (usFilter ru (guestFilter rg gc
        (leftJoin scores (prepared whiskies)))))
        = (rescale false T (outlierFilter T (usFilter ru (guestFilter rg gc
          (leftJoin scores (prepared whiskies)))))).map (rescaleRow T) from by
      unfold rescale
      rw [if_pos rfl, if_neg Bool.false_ne_true]]
    rw [regionFilter_map_rescaleRow, fillAge_map_rescaleRow]
  · intro r hr
    rcases mem_fillAge_provenance hr with ⟨r₁, hr₁, hsc, hid, hat⟩
    have hr₂ := mem_of_mem_regionFilter hr₁
    simp only [cleanNoFill, rescale, if_neg Bool.false_ne_true] at hr₂
    have hr₃ := mem_of_mem_guestFilter (mem_of_mem_usFilter
      (mem_of_mem_outlierFilter hr₂))
    rcases mem_leftJoin_provenance hr₃ with ⟨s, hs, ha, hi, hsc'⟩
    exact ⟨s, hs, by rw [hat, ha], by rw [hid, hi], by rw [hsc, hsc']⟩

/-! ## C5: the age-missing fill -/

/-- Claim C5: with age-missing fill enabled the returned table is the
pre-fill table mapped through the fill step, no returned row has a null
corrected age, and the added flag is true exactly on rows whose age was
null before the fill. -/
theorem c5_age_fill (rg gc ru ps : Bool) (T : ℚ) (minr : ℕ)
    (scores : List ScoreRec) (whiskies : List WhiskyRec) :
    load_whisky_data ⟨rg, gc, ru, T, ps, true, minr⟩ scores whiskies
      = (cleanNoFill ⟨rg, gc, ru, T, ps, true, minr⟩ scores whiskies).map
          fillRow ∧
    (∀ r ∈ load_whisky_data ⟨rg, gc, ru, T, ps, true, minr⟩ scores whiskies,
      r.age.isSome = true) ∧
    (∀ r ∈ cleanNoFill ⟨rg, gc, ru, T, ps, true, minr⟩ scores whiskies,
      ((fillRow r).ageMissing = true ↔ r.age = none)) := by
  refine ⟨by unfold load_whisky_data fillAge; rw [if_pos rfl], ?_, ?_⟩
  · intro r hr
    unfold load_whisky_data fillAge at hr
    rw [if_pos rfl] at hr
    rcases List.mem_map.mp hr with ⟨r', _, rfl⟩
    rfl
  · intro r _
    show r.age.isNone = true ↔ r.age = none
    exact Option.isNone_iff_eq_none

/-! ## C8: missing person aborts report generation -/

/-- Claim C8: when the loaded table has zero rows for the requested person,
report generation fails with the person-not-found error and produces
nothing (no report, no leftover chart artifacts). -/
theorem c8_person_not_found (guestCol : Bool) (scores : List ScoreRec)
    (whiskies : List WhiskyRec) (name : String)
    (h : personRows (load_whisky_data (generatorConfig guestCol) scores
      whiskies) name = []) :
    generate_personal_whisky_report true guestCol scores whiskies name
      = (.error .personNotFound, []) := by
  unfold generate_personal_whisky_report
  simp [h]

/-- Witness for C8 at a concrete input. -/
theorem c8_person_not_found_witness :
    personRows (load_whisky_data (generatorConfig false) [] []) "A" = [] ∧
    generate_personal_whisky_report true false [] [] "A"
      = (.error .personNotFound, []) :=
  ⟨by decide, c8_person_not_found false [] [] "A" (by decide)⟩

/-! ## C9: chart artifacts are NOT released on failure paths -/

/-- Counterexample to claim C9 as stated: for an attendee who exists but has
no other attendee reaching the correlation overlap minimum, the pipeline
fails after the three chart files were created (sort_values raises on the
empty correlation list) and the except handler does not delete them, so the
invocation leaves all three temporary chart artifacts behind. -/
theorem c9_counterexample :
    generate_personal_whisky_report true false [⟨1, "A", none, 8, 1⟩]
        [⟨1, "Dist", some 10, "desc", "Islay", 2/5, 80, 1, "OB"⟩] "A"
      = (.error .pipelineError, chartFiles) ∧ chartFiles ≠ [] := by
  constructor
  · exact of_decide_eq_true (by with_unfolding_all rfl)
  · decide

/-- Claim C9 (amended): every invocation either leaves no temporary chart
artifact behind, or fails after chart creation (the analysis steps raise)
and leaves exactly the three chart files; in particular the cleanup runs
exactly on the success path, not unconditionally. -/
theorem c9_cleanup_only_on_success (filePresent guestCol : Bool)
    (scores : List ScoreRec) (whiskies : List WhiskyRec) (name : String) :
    (generate_personal_whisky_report filePresent guestCol scores whiskies
      name).2 = [] ∨
    ((generate_personal_whisky_report filePresent guestCol scores whiskies
        name).1 = .error .pipelineError ∧
      (generate_personal_whisky_report filePresent guestCol scores whiskies
        name).2 = chartFiles) := by
  unfold generate_personal_whisky_report
  split
  · split
    · left; rfl
    · split
      · right; exact ⟨rfl, rfl⟩
      · split
        · right; exact ⟨rfl, rfl⟩
        · left; rfl
  · left; rfl

/-! ## C3: the largest-difference search -/

theorem selectMax_fst_nonneg (ts : ℚ) (l : List Row) :
    0 ≤ (selectMax ts l).1 := by
  induction l with
  | nil => exact le_refl 0
  | cons o rest ih =>
    simp only [selectMax]
    split_ifs with h
    · exact abs_nonneg _
    · exact ih

theorem selectMax_fst_ge (ts : ℚ) (l : List Row) :
    ∀ o ∈ l, |ts - o.score| ≤ (selectMax ts l).1 := by
  induction l with
  | nil => intro o ho; cases ho
  | cons x rest ih =>
    intro o ho
    simp only [selectMax]
    rcases List.mem_cons.mp ho with rfl | ho'
    · split_ifs with h
      · exact le_refl _
      · push_neg at h
        by_cases hd : (selectMax ts rest).1 ≤ |ts - o.score|
        · have h0 := h hd
          have h1 := abs_nonneg (ts - o.score)
          have h2 := selectMax_fst_nonneg ts rest
          linarith
        · exact le_of_lt (not_le.mp hd)
    · split_ifs with h
      · exact le_trans (ih o ho') h.1
      · exact ih o ho'

theorem selectMax_spec_some (ts : ℚ) (l : List Row) (b : Row)
    (hb : (selectMax ts l).2 = some b) :
    b ∈ l ∧ |ts - b.score| = (selectMax ts l).1 ∧ 0 < (selectMax ts l).1 ∧
    ∃ l₁ l₂, l = l₁ ++ b :: l₂ ∧
      ∀ x ∈ l₁, |ts - x.score| < (selectMax ts l).1 := by
  induction l with
  | nil => cases hb
  | cons x rest ih =>
    simp only [selectMax] at hb ⊢
    split_ifs at hb ⊢ with h
    · rcases Option.some.inj hb with rfl
      exact ⟨List.mem_cons_self x rest, rfl, h.2, [], rest, rfl, by simp⟩
    · rcases ih hb with ⟨hmem, heq, hpos, l₁, l₂, hsplit, hpre⟩
      refine ⟨List.mem_cons_of_mem x hmem, heq, hpos, x :: l₁, l₂,
        by rw [List.cons_append, ← hsplit], ?_⟩
      intro y hy
      rcases List.mem_cons.mp hy with rfl | hy'
      · push_neg at h
        by_cases hd : (selectMax ts rest).1 ≤ |ts - y.score|
        · have h0 := h hd
          have h1 := abs_nonneg (ts - y.score)
          linarith
        · exact not_le.mp hd
      · exact hpre y hy'

theorem maxDiffFold_aux (ts : ℚ) (l : List Row) :
    ∀ (m₀ : ℚ) (b₀ : Option Row), 0 ≤ m₀ →
    l.foldl (fun p o =>
        if p.1 < |ts - o.score| then (|ts - o.score|, some o) else p) (m₀, b₀)
      = if m₀ < (selectMax ts l).1 then selectMax ts l else (m₀, b₀) := by
  induction l with
  | nil =>
    intro m₀ b₀ h
    simp only [List.foldl_nil, selectMax]
    rw [if_neg (not_lt.mpr h)]
  | cons o rest ih =>
    intro m₀ b₀ h0
    rcases hP : selectMax ts rest with ⟨m', b'⟩
    have hm' : 0 ≤ m' := by
      have := selectMax_fst_nonneg ts rest
      rw [hP] at this
      exact this
    rw [List.foldl_cons]
    simp only [selectMax, hP]
    by_cases hstep : m₀ < |ts - o.score|
    · rw [if_pos hstep, ih _ _ (abs_nonneg _), hP]
      by_cases hcmp : m' ≤ |ts - o.score|
      · have hd : 0 < |ts - o.score| := lt_of_le_of_lt h0 hstep
        rw [if_neg (not_lt.mpr hcmp),
          if_pos (⟨hcmp, hd⟩ : m' ≤ |ts - o.score| ∧ 0 < |ts - o.score|)]
        dsimp only
        rw [if_pos hstep]
      · push_neg at hcmp
        rw [if_pos hcmp,
          if_neg (fun hh => absurd hh.1 (not_le.mpr hcmp) :
            ¬(m' ≤ |ts - o.score| ∧ 0 < |ts - o.score|))]
        dsimp only
        rw [if_pos (lt_trans hstep hcmp)]
    · rw [if_neg hstep, ih _ _ h0, hP]
      push_neg at hstep
      by_cases hc : m' ≤ |ts - o.score| ∧ 0 < |ts - o.score|
      · rw [if_pos hc]
        dsimp only
        rw [if_neg (not_lt.mpr (le_trans hc.1 hstep)),
          if_neg (not_lt.mpr hstep)]
      · rw [if_neg hc]

theorem maxDiffFold_eq_selectMax (ts : ℚ) (l : List Row) :
    maxDiffFold ts l = selectMax ts l := by
  unfold maxDiffFold
  rw [maxDiffFold_aux ts l 0 none le_rfl]
  by_cases h : 0 < (selectMax ts l).1
  · rw [if_pos h]
  · rw [if_neg h]
    have h1 : (selectMax ts l).1 = 0 :=
      le_antisymm (not_lt.mp h) (selectMax_fst_nonneg ts l)
    have h2 : (selectMax ts l).2 = none := by
      rcases hsnd : (selectMax ts l).2 with _ | b
      · rfl
      · have hpos := (selectMax_spec_some ts l b hsnd).2.2.1
        rw [h1] at hpos
        exact absurd hpos (lt_irrefl 0)
    exact (Prod.ext_iff.mpr ⟨h1.symm, h2.symm⟩)

theorem diffsFor_spec (data : List Row) (name : String) (t : Row) :
    diffsFor data name t = [] ∨
    ∃ d t0 o, diffsFor data name t = [d] ∧
      ((personRows data name).filter
        (fun r => decide (r.whiskyId = t.whiskyId))).head? = some t0 ∧
      selectMax t0.score (othersFor data name t.whiskyId)
        = (d.absDiff, some o) ∧
      d.whiskyId = t.whiskyId ∧ d.targetScore = t0.score ∧
      d.other = o.attendee ∧ d.otherScore = o.score ∧ 0 < d.absDiff := by
  unfold diffsFor
  simp only [maxDiffFold_eq_selectMax]
  rcases hh : ((personRows data name).filter
      (fun r => decide (r.whiskyId = t.whiskyId))).head? with _ | t0
  · left; simp only [hh]
  · simp only [hh]
    rcases hsm : selectMax t0.score (othersFor data name t.whiskyId)
      with ⟨m, _ | o⟩
    · left; simp only [hsm]
    · by_cases hm : 0 < m
      · right
        refine ⟨⟨t.whiskyId, o.description, o.distillery, o.age, o.attendee,
          t0.score, o.score, m⟩, t0, o, ?_, rfl, ?_, rfl, rfl, rfl, rfl, hm⟩
        · simp only [hsm]
          rw [if_pos hm]
        · exact hsm
      · left
        simp only [hsm]
        rw [if_neg hm]

theorem countP_flatMap_le_one {α β : Type _} (key : α → ℚ) (l : List α)
    (F : α → List β) (p : β → Bool) (v : ℚ)
    (hnd : (l.map key).Nodup)
    (h1 : ∀ t ∈ l, (F t).countP p ≤ 1)
    (h0 : ∀ t ∈ l, (F t).countP p ≠ 0 → key t = v) :
    (l.flatMap F).countP p ≤ 1 := by
  induction l with
  | nil => simp
  | cons t rest ih =>
    rw [List.map_cons, List.nodup_cons] at hnd
    rw [List.flatMap_cons, List.countP_append]
    by_cases hz : (F t).countP p = 0
    · rw [hz, Nat.zero_add]
      exact ih hnd.2 (fun x hx => h1 x (List.mem_cons_of_mem t hx))
        (fun x hx => h0 x (List.mem_cons_of_mem t hx))
    · have hkey := h0 t (List.mem_cons_self t rest) hz
      have hrest : (rest.flatMap F).countP p = 0 := by
        rw [List.countP_flatMap]
        apply List.sum_eq_zero
        intro n hn
        rcases List.mem_map.mp hn with ⟨x, hx, rfl⟩
        by_contra hnz
        have hkx := h0 x (List.mem_cons_of_mem t hx) hnz
        exact hnd.1 (by
          rw [hkey, ← hkx]
          exact List.mem_map_of_mem key hx)
      rw [hrest, Nat.add_zero]
      exact h1 t (List.mem_cons_self t rest)

/-- Consequences of membership in the un-sorted difference list. -/
theorem mem_diffs_spec {data : List Row} {name : String} {d : DiffRow}
    (hd : d ∈ (personRows data name).flatMap (diffsFor data name)) :
    ∃ t0 o, ((personRows data name).filter
        (fun r => decide (r.whiskyId = d.whiskyId))).head? = some t0 ∧
      selectMax t0.score (othersFor data name d.whiskyId)
        = (d.absDiff, some o) ∧
      d.targetScore = t0.score ∧ d.other = o.attendee ∧
      d.otherScore = o.score ∧ 0 < d.absDiff := by
  rcases List.mem_flatMap.mp hd with ⟨t, _, hdt⟩
  rcases diffsFor_spec data name t with h | ⟨d', t0, o, heq, hh, hsm, hwid,
    hts, hoth, hosc, hpos⟩
  · rw [h] at hdt; cases hdt
  · rw [heq] at hdt
    rcases List.mem_singleton.mp hdt with rfl
    rw [← hwid] at hh hsm
    exact ⟨t0, o, hh, hsm, hts, hoth, hosc, hpos⟩

/-- Counterexample to claim C3 as stated: when the target person scored the
same whisky twice, the outer loop runs once per score row and the output
contains two rows for that whisky — more than one row per item. -/
theorem c3_counterexample :
    ((find_largest_score_differences
        [sampleRow 1 "A" 8, sampleRow 1 "A" 8, sampleRow 1 "B" 6]
        "A").getD []).countP (fun d => decide (d.whiskyId = 1)) = 2 ∧
    ¬ (∀ wid : ℚ, ((find_largest_score_differences
        [sampleRow 1 "A" 8, sampleRow 1 "A" 8, sampleRow 1 "B" 6]
        "A").getD []).countP (fun d => decide (d.whiskyId = wid)) ≤ 1) := by
  have h2 : ((find_largest_score_differences
      [sampleRow 1 "A" 8, sampleRow 1 "A" 8, sampleRow 1 "B" 6]
      "A").getD []).countP (fun d => decide (d.whiskyId = 1)) = 2 :=
    of_decide_eq_true (by with_unfolding_all rfl)
  refine ⟨h2, fun hall => ?_⟩
  have := hall 1
  rw [h2] at this
  exact absurd this (by norm_num)

/-- Claim C3 (amended: provided the target person has at most one score row
per item): the output has at most one row per item; its difference dominates
every other attendee's same-item difference; zero-difference items are
discarded; rows are sorted descending by absolute difference; and the
reported other attendee is the first row, in iteration order, among that
item's other-attendee rows to attain the maximal difference. -/
theorem c3_largest_differences (data : List Row) (name : String)
    (hnd : ((personRows data name).map (fun r => r.whiskyId)).Nodup) :
    (∀ wid : ℚ, ((find_largest_score_differences data name).getD []).countP
      (fun d => decide (d.whiskyId = wid)) ≤ 1) ∧
    (∀ d ∈ (find_largest_score_differences data name).getD [],
      ∀ o ∈ data, o.attendee ≠ name → o.whiskyId = d.whiskyId →
        |d.targetScore - o.score| ≤ d.absDiff) ∧
    (∀ d ∈ (find_largest_score_differences data name).getD [],
      0 < d.absDiff) ∧
    ((find_largest_score_differences data name).getD []).Pairwise
      (fun a b => b.absDiff ≤ a.absDiff) ∧
    (∀ d ∈ (find_largest_score_differences data name).getD [],
      ∃ l₁ l₂ : List Row, ∃ o : Row,
        othersFor data name d.whiskyId = l₁ ++ o :: l₂ ∧
        o.attendee = d.other ∧ o.score = d.otherScore ∧
        |d.targetScore - o.score| = d.absDiff ∧
        ∀ x ∈ l₁, |d.targetScore - x.score| < d.absDiff) := by
  unfold find_largest_score_differences
  by_cases hemp : ((personRows data name).flatMap (diffsFor data name)).isEmpty
  · rw [if_pos hemp]
    exact ⟨fun wid => by simp, fun d hd => absurd hd (by simp),
      fun d hd => absurd hd (by simp), by simp,
      fun d hd => absurd hd (by simp)⟩
  · rw [if_neg hemp]
    have hmem : ∀ d : DiffRow,
        d ∈ (some (sortBy (fun a b => decide (b.absDiff ≤ a.absDiff))
          ((personRows data name).flatMap (diffsFor data name)))).getD [] →
        d ∈ (personRows data name).flatMap (diffsFor data name) := by
      intro d hd
      exact mem_sortBy.mp hd
    refine ⟨?_, ?_, ?_, ?_, ?_⟩
    · intro wid
      have hperm := perm_sortBy
        (fun a b : DiffRow => decide (b.absDiff ≤ a.absDiff))
        ((personRows data name).flatMap (diffsFor data name))
      rw [Option.getD_some, hperm.countP_eq]
      apply countP_flatMap_le_one (fun r => r.whiskyId) _ _ _ wid hnd
      · intro t _
        rcases diffsFor_spec data name t with h | ⟨d', _, _, heq, _⟩
        · rw [h]; exact Nat.zero_le 1
        · rw [heq]
          exact List.countP_le_length _
      · intro t _ hnz
        rcases diffsFor_spec data name t with h | ⟨d', _, _, heq, _, _, hwid, _⟩
        · rw [h] at hnz; exact absurd rfl hnz
        · rw [heq, List.countP_cons, List.countP_nil] at hnz
          by_cases hp : d'.whiskyId = wid
          · rw [← hwid, hp]
          · simp [hp] at hnz
    · intro d hd o ho hoa how
      rcases mem_diffs_spec (hmem d hd) with ⟨t0, _, _, hsm, hts, _, _, _⟩
      have hom : o ∈ othersFor data name d.whiskyId := by
        unfold othersFor
        rw [List.mem_filter]
        exact ⟨ho, by rw [Bool.and_eq_true, decide_eq_true_eq,
          decide_eq_true_eq]; exact ⟨hoa, how⟩⟩
      have := selectMax_fst_ge t0.score (othersFor data name d.whiskyId) o hom
      rw [hsm] at this
      rw [hts]
      exact this
    · intro d hd
      rcases mem_diffs_spec (hmem d hd) with ⟨_, _, _, _, _, _, _, hpos⟩
      exact hpos
    · rw [Option.getD_some]
      have hs := sorted_sortBy (fun a b : DiffRow => decide (b.absDiff ≤ a.absDiff))
        (fun a b => by
          rcases le_total b.absDiff a.absDiff with h | h
          · exact Or.inl (decide_eq_true h)
          · exact Or.inr (decide_eq_true h))
        (fun a b c hab hbc => decide_eq_true
          (le_trans (of_decide_eq_true hbc) (of_decide_eq_true hab)))
        ((personRows data name).flatMap (diffsFor data name))
      exact hs.imp (fun h => of_decide_eq_true h)
    · intro d hd
      rcases mem_diffs_spec (hmem d hd) with ⟨t0, o, _, hsm, hts, hoth, hosc, _⟩
      have hsnd : (selectMax t0.score (othersFor data name d.whiskyId)).2
          = some o := by rw [hsm]
      rcases selectMax_spec_some _ _ _ hsnd with ⟨_, heq, _, l₁, l₂, hsplit, hpre⟩
      rw [hsm] at heq hpre
      refine ⟨l₁, l₂, o, hsplit, hoth.symm, hosc.symm, ?_, ?_⟩
      · rw [hts]; exact heq
      · intro x hx
        rw [hts]
        exact hpre x hx

/-- Witness for C3 at a concrete input. -/
theorem c3_largest_differences_witness :
    ((personRows [sampleRow 1 "A" 8, sampleRow 2 "A" 6, sampleRow 1 "B" 6]
      "A").map (fun r => r.whiskyId)).Nodup ∧
    ((∀ wid : ℚ, ((find_largest_score_differences
        [sampleRow 1 "A" 8, sampleRow 2 "A" 6, sampleRow 1 "B" 6]
        "A").getD []).countP (fun d => decide (d.whiskyId = wid)) ≤ 1) ∧
    (∀ d ∈ (find_largest_score_differences
        [sampleRow 1 "A" 8, sampleRow 2 "A" 6, sampleRow 1 "B" 6]
        "A").getD [],
      ∀ o ∈ [sampleRow 1 "A" 8, sampleRow 2 "A" 6, sampleRow 1 "B" 6],
        o.attendee ≠ "A" → o.whiskyId = d.whiskyId →
        |d.targetScore - o.score| ≤ d.absDiff) ∧
    (∀ d ∈ (find_largest_score_differences
        [sampleRow 1 "A" 8, sampleRow 2 "A" 6, sampleRow 1 "B" 6]
        "A").getD [], 0 < d.absDiff) ∧
    ((find_largest_score_differences
        [sampleRow 1 "A" 8, sampleRow 2 "A" 6, sampleRow 1 "B" 6]
        "A").getD []).Pairwise (fun a b => b.absDiff ≤ a.absDiff) ∧
    (∀ d ∈ (find_largest_score_differences
        [sampleRow 1 "A" 8, sampleRow 2 "A" 6, sampleRow 1 "B" 6]
        "A").getD [],
      ∃ l₁ l₂ : List Row, ∃ o : Row, othersFor
          [sampleRow 1 "A" 8, sampleRow 2 "A" 6, sampleRow 1 "B" 6]
          "A" d.whiskyId = l₁ ++ o :: l₂ ∧
        o.attendee = d.other ∧ o.score = d.otherScore ∧
        |d.targetScore - o.score| = d.absDiff ∧
        ∀ x ∈ l₁, |d.targetScore - x.score| < d.absDiff)) :=
  ⟨by decide,
    c3_largest_differences
      [sampleRow 1 "A" 8, sampleRow 2 "A" 6, sampleRow 1 "B" 6] "A"
      (by decide)⟩

/-! ## dedupFirst (pandas unique()) lemmas -/

theorem mem_dedupFirst : ∀ {l : List String} {a : String},
    a ∈ dedupFirst l ↔ a ∈ l := by
  intro l
  induction l using dedupFirst.induct with
  | case1 => intro a; rw [dedupFirst]
  | case2 b rest ih =>
    intro a
    rw [dedupFirst, List.mem_cons, ih, List.mem_filter, List.mem_cons]
    by_cases hab : a = b
    · simp [hab]
    · simp [hab]

theorem nodup_dedupFirst : ∀ (l : List String), (dedupFirst l).Nodup := by
  intro l
  induction l using dedupFirst.induct with
  | case1 => rw [dedupFirst]; exact List.nodup_nil
  | case2 b rest ih =>
    rw [dedupFirst]
    refine List.nodup_cons.mpr ⟨?_, ih⟩
    intro hmem
    have := (List.mem_filter.mp (mem_dedupFirst.mp hmem)).2
    simp at this

/-! ## C10: no self-comparison in either analysis -/

theorem corrRowFor_some {data : List Row} {name : String} {minCommon : ℕ}
    {oa : String} {r : CorrRow}
    (h : corrRowFor data name minCommon oa = some r) :
    r.attendee = oa ∧ r.corr = pearson (commonPairs data name oa) ∧
    r.common = (commonPairs data name oa).length ∧
    minCommon ≤ (commonPairs data name oa).length := by
  unfold corrRowFor at h
  split_ifs at h with hq
  rcases Option.some.inj h with rfl
  exact ⟨rfl, rfl, rfl, hq⟩

theorem mem_otherAttendees {data : List Row} {name oa : String}
    (h : oa ∈ otherAttendees data name) : oa ≠ name := by
  unfold otherAttendees at h
  rcases List.mem_map.mp (mem_dedupFirst.mp h) with ⟨r, hr, rfl⟩
  exact of_decide_eq_true (List.mem_filter.mp hr).2

theorem mem_corrRows_attendee {data : List Row} {name : String}
    {minCommon : ℕ} {r : CorrRow} (h : r ∈ corrRows data name minCommon) :
    r.attendee ∈ otherAttendees data name := by
  rcases List.mem_filterMap.mp h with ⟨oa, hoa, hsome⟩
  rcases corrRowFor_some hsome with ⟨rfl, _, _, _⟩
  exact hoa

/-- Claim C10: neither the correlation output nor the largest-differences
output ever contains a row comparing the target person with themselves. -/
theorem c10_no_self_comparison (data : List Row) (name : String)
    (minCommon : ℕ) :
    (∀ r ∈ (calculate_attendee_correlations data name minCommon).getD [],
      r.attendee ≠ name) ∧
    (∀ d ∈ (find_largest_score_differences data name).getD [],
      d.other ≠ name) := by
  constructor
  · intro r hr
    unfold calculate_attendee_correlations at hr
    split_ifs at hr with hemp
    · cases hr
    · rw [Option.getD_some] at hr
      exact mem_otherAttendees (mem_corrRows_attendee (mem_sortBy.mp hr))
  · intro d hd
    unfold find_largest_score_differences at hd
    split_ifs at hd with hemp
    · cases hd
    · rw [Option.getD_some] at hd
      rcases mem_diffs_spec (mem_sortBy.mp hd) with
        ⟨t0, o, _, hsm, _, hoth, _, _⟩
      have hsnd : (selectMax t0.score (othersFor data name d.whiskyId)).2
          = some o := by rw [hsm]
      have homem := (selectMax_spec_some _ _ _ hsnd).1
      unfold othersFor at homem
      have hne := (List.mem_filter.mp homem).2
      rw [Bool.and_eq_true, decide_eq_true_eq] at hne
      rw [hoth]
      exact hne.1

/-! ## C7: the region-aggregate pipeline -/

/-- Claim C7: region aggregates are built by grouping the person's rows by
region with mean score and count, pre-filtering to the 10 regions with the
highest row counts, keeping only regions over the minimum count, and
selecting the top-3 / bottom-3 of the kept regions by mean score. -/
theorem c7_region_aggregates (data : List Row) (name : String)
    (minCount : ℕ) :
    (∀ g ∈ regionGroups (personRows data name),
      g.cnt = ((personRows data name).filter
        (fun r => decide (r.region = some g.region))).length ∧
      g.avg = (((personRows data name).filter
          (fun r => decide (r.region = some g.region))).map
            (fun r => r.score)).sum
        / ((((personRows data name).filter
          (fun r => decide (r.region = some g.region))).length : ℕ) : ℚ)) ∧
    (∀ r ∈ personRows data name, ∀ rg, r.region = some rg →
      ∃ g ∈ regionGroups (personRows data name), g.region = rg) ∧
    (∀ g ∈ topRegionsPre data name,
      g ∈ regionGroups (personRows data name)) ∧
    ((topRegionsPre data name).length ≤ 10) ∧
    (∀ g ∈ topRegionsPre data name,
      ∀ g' ∈ regionGroups (personRows data name),
        g' ∉ topRegionsPre data name → g'.cnt ≤ g.cnt) ∧
    (∀ g : RegionAgg, g ∈ filteredRegions data name minCount ↔
      g ∈ topRegionsPre data name ∧ minCount < g.cnt) ∧
    (∀ g ∈ top3Regions data name minCount,
      g ∈ filteredRegions data name minCount) ∧
    ((top3Regions data name minCount).length
      = min 3 (filteredRegions data name minCount).length) ∧
    (∀ g ∈ top3Regions data name minCount,
      ∀ g' ∈ filteredRegions data name minCount,
        g' ∉ top3Regions data name minCount → g'.avg ≤ g.avg) ∧
    (∀ g ∈ bottom3Regions data name minCount,
      g ∈ filteredRegions data name minCount) ∧
    ((bottom3Regions data name minCount).length
      = min 3 (filteredRegions data name minCount).length) ∧
    (∀ g ∈ bottom3Regions data name minCount,
      ∀ g' ∈ filteredRegions data name minCount,
        g' ∉ bottom3Regions data name minCount → g.avg ≤ g'.avg) := by
  have hcnt_tot : ∀ a b : RegionAgg,
      (decide (b.cnt ≤ a.cnt)) = true ∨ (decide (a.cnt ≤ b.cnt)) = true := by
    intro a b
    rcases Nat.le_total b.cnt a.cnt with h | h
    · exact Or.inl (decide_eq_true h)
    · exact Or.inr (decide_eq_true h)
  have hcnt_trans : ∀ a b c : RegionAgg, (decide (b.cnt ≤ a.cnt)) = true →
      (decide (c.cnt ≤ b.cnt)) = true → (decide (c.cnt ≤ a.cnt)) = true := by
    intro a b c h1 h2
    exact decide_eq_true
      (le_trans (of_decide_eq_true h2) (of_decide_eq_true h1))
  have havg_tot : ∀ a b : RegionAgg,
      (decide (b.avg ≤ a.avg)) = true ∨ (decide (a.avg ≤ b.avg)) = true := by
    intro a b
    rcases le_total b.avg a.avg with h | h
    · exact Or.inl (decide_eq_true h)
    · exact Or.inr (decide_eq_true h)
  have havg_trans : ∀ a b c : RegionAgg, (decide (b.avg ≤ a.avg)) = true →
      (decide (c.avg ≤ b.avg)) = true → (decide (c.avg ≤ a.avg)) = true := by
    intro a b c h1 h2
    exact decide_eq_true
      (le_trans (of_decide_eq_true h2) (of_decide_eq_true h1))
  have havg_tot' : ∀ a b : RegionAgg,
      (decide (a.avg ≤ b.avg)) = true ∨ (decide (b.avg ≤ a.avg)) = true :=
    fun a b => (havg_tot b a)
  have havg_trans' : ∀ a b c : RegionAgg, (decide (a.avg ≤ b.avg)) = true →
      (decide (b.avg ≤ c.avg)) = true → (decide (a.avg ≤ c.avg)) = true := by
    intro a b c h1 h2
    exact decide_eq_true
      (le_trans (of_decide_eq_true h1) (of_decide_eq_true h2))
  refine ⟨?_, ?_, ?_, ?_, ?_, ?_, ?_, ?_, ?_, ?_, ?_, ?_⟩
  · intro g hg
    rcases List.mem_map.mp hg with ⟨rg, _, rfl⟩
    exact ⟨rfl, rfl⟩
  · intro r hr rg hreg
    refine ⟨_, List.mem_map_of_mem _
      (mem_dedupFirst.mpr (List.mem_filterMap.mpr ⟨r, hr, hreg⟩)), rfl⟩
  · intro g hg
    exact mem_sortBy.mp (List.take_subset 10 _ hg)
  · exact List.length_take_le 10 _
  · intro g hg g' hg' hgn
    have hsorted := sorted_sortBy (fun a b : RegionAgg => decide (b.cnt ≤ a.cnt))
      hcnt_tot hcnt_trans (regionGroups (personRows data name))
    exact of_decide_eq_true (sorted_take_dominates hsorted 10 g hg g'
      (mem_sortBy.mpr hg') hgn)
  · intro g
    unfold filteredRegions
    rw [List.mem_filter, decide_eq_true_eq]
  · intro g hg
    exact mem_sortBy.mp (List.take_subset 3 _ hg)
  · unfold top3Regions
    rw [List.length_take,
      (perm_sortBy _ (filteredRegions data name minCount)).length_eq]
  · intro g hg g' hg' hgn
    have hsorted := sorted_sortBy (fun a b : RegionAgg => decide (b.avg ≤ a.avg))
      havg_tot havg_trans (filteredRegions data name minCount)
    exact of_decide_eq_true (sorted_take_dominates hsorted 3 g hg g'
      (mem_sortBy.mpr hg') hgn)
  · intro g hg
    exact mem_sortBy.mp (List.take_subset 3 _ hg)
  · unfold bottom3Regions
    rw [List.length_take,
      (perm_sortBy _ (filteredRegions data name minCount)).length_eq]
  · intro g hg g' hg' hgn
    have hsorted := sorted_sortBy (fun a b : RegionAgg => decide (a.avg ≤ b.avg))
      havg_tot' havg_trans' (filteredRegions data name minCount)
    exact of_decide_eq_true (sorted_take_dominates hsorted 3 g hg g'
      (mem_sortBy.mpr hg') hgn)

/-! ## C6: the correlation analysis -/

/-- Every represented Pearson value has a positive denominator-square. -/
theorem pearson_wf {ps : List (ℚ × ℚ)} {q d : ℚ}
    (h : pearson ps = some (q, d)) : 0 < d := by
  simp only [pearson] at h
  split_ifs at h with h0 hz
  rcases Prod.mk.injEq .. ▸ Option.some.inj h with ⟨h1, h2⟩
  subst h2
  push_neg at hz
  have hsxx : 0 ≤ (ps.map (fun p =>
      (p.1 - (ps.map (fun p => p.1)).sum / (ps.length : ℚ)) ^ 2)).sum := by
    apply List.sum_nonneg
    intro x hx
    rcases List.mem_map.mp hx with ⟨p, _, rfl⟩
    exact sq_nonneg _
  have hsyy : 0 ≤ (ps.map (fun p =>
      (p.2 - (ps.map (fun p => p.2)).sum / (ps.length : ℚ)) ^ 2)).sum := by
    apply List.sum_nonneg
    intro x hx
    rcases List.mem_map.mp hx with ⟨p, _, rfl⟩
    exact sq_nonneg _
  exact mul_pos (lt_of_le_of_ne hsxx (Ne.symm hz.1))
    (lt_of_le_of_ne hsyy (Ne.symm hz.2))

/-- The signed-square key is monotone in the represented real value
(one direction, enough for sortedness transfer). -/
theorem toR_le_of_skey_le (x y : ℚ × ℚ) (hx : 0 < x.2) (hy : 0 < y.2)
    (h : skey x ≤ skey y) : toR x ≤ toR y := by
  unfold skey at h
  unfold toR
  have hdx : (0 : ℝ) < (x.2 : ℝ) := by exact_mod_cast hx
  have hdy : (0 : ℝ) < (y.2 : ℝ) := by exact_mod_cast hy
  have hsx : 0 < Real.sqrt (x.2 : ℝ) := Real.sqrt_pos.mpr hdx
  have hsy : 0 < Real.sqrt (y.2 : ℝ) := Real.sqrt_pos.mpr hdy
  have hsx2 : Real.sqrt (x.2 : ℝ) ^ 2 = (x.2 : ℝ) := Real.sq_sqrt hdx.le
  have hsy2 : Real.sqrt (y.2 : ℝ) ^ 2 = (y.2 : ℝ) := Real.sq_sqrt hdy.le
  rw [div_le_div_iff hsx hsy]
  by_cases hx1 : 0 ≤ x.1
  · by_cases hy1 : 0 ≤ y.1
    · rw [if_pos hx1, if_pos hy1, div_le_div_iff hx hy] at h
      have hR : (x.1 : ℝ) ^ 2 * (y.2 : ℝ) ≤ (y.1 : ℝ) ^ 2 * (x.2 : ℝ) := by
        exact_mod_cast h
      have hx1R : (0 : ℝ) ≤ (x.1 : ℝ) := by exact_mod_cast hx1
      have hy1R : (0 : ℝ) ≤ (y.1 : ℝ) := by exact_mod_cast hy1
      have hu2 : ((x.1 : ℝ) * Real.sqrt (y.2 : ℝ)) ^ 2
          = (x.1 : ℝ) ^ 2 * (y.2 : ℝ) := by rw [mul_pow, hsy2]
      have hv2 : ((y.1 : ℝ) * Real.sqrt (x.2 : ℝ)) ^ 2
          = (y.1 : ℝ) ^ 2 * (x.2 : ℝ) := by rw [mul_pow, hsx2]
      nlinarith [hu2, hv2, hR, mul_nonneg hx1R hsy.le, mul_nonneg hy1R hsx.le]
    · push_neg at hy1
      rw [if_pos hx1, if_neg (not_le.mpr hy1)] at h
      exfalso
      have hy2pos : (0 : ℚ) < y.1 ^ 2 :=
        pow_two_pos_of_ne_zero (ne_of_lt hy1)
      have h1 : (0 : ℚ) < y.1 ^ 2 / y.2 := div_pos hy2pos hy
      have h2 : (0 : ℚ) ≤ x.1 ^ 2 / x.2 := div_nonneg (sq_nonneg _) hx.le
      linarith
  · push_neg at hx1
    by_cases hy1 : 0 ≤ y.1
    · have hx1R : (x.1 : ℝ) < 0 := by exact_mod_cast hx1
      have hy1R : (0 : ℝ) ≤ (y.1 : ℝ) := by exact_mod_cast hy1
      have h1 : (x.1 : ℝ) * Real.sqrt (y.2 : ℝ) ≤ 0 :=
        mul_nonpos_of_nonpos_of_nonneg hx1R.le hsy.le
      have h2 : (0 : ℝ) ≤ (y.1 : ℝ) * Real.sqrt (x.2 : ℝ) :=
        mul_nonneg hy1R hsx.le
      linarith
    · push_neg at hy1
      rw [if_neg (not_le.mpr hx1), if_neg (not_le.mpr hy1)] at h
      have h' : y.1 ^ 2 / y.2 ≤ x.1 ^ 2 / x.2 := by linarith
      rw [div_le_div_iff hy hx] at h'
      have hR : (y.1 : ℝ) ^ 2 * (x.2 : ℝ) ≤ (x.1 : ℝ) ^ 2 * (y.2 : ℝ) := by
        exact_mod_cast h'
      have hx1R : (x.1 : ℝ) < 0 := by exact_mod_cast hx1
      have hy1R : (y.1 : ℝ) < 0 := by exact_mod_cast hy1
      have hu2 : (-(y.1 : ℝ) * Real.sqrt (x.2 : ℝ)) ^ 2
          = (y.1 : ℝ) ^ 2 * (x.2 : ℝ) := by rw [mul_pow, hsx2]; ring
      have hv2 : (-(x.1 : ℝ) * Real.sqrt (y.2 : ℝ)) ^ 2
          = (x.1 : ℝ) ^ 2 * (y.2 : ℝ) := by rw [mul_pow, hsy2]; ring
      nlinarith [hu2, hv2, hR,
        mul_nonneg (neg_nonneg.mpr hy1R.le) hsx.le,
        mul_nonneg (neg_nonneg.mpr hx1R.le) hsy.le]

theorem corrDescLe_total (a b : CorrRow) :
    corrDescLe a b = true ∨ corrDescLe b a = true := by
  rcases ha : a.corr with _ | x <;> rcases hb : b.corr with _ | y <;>
    simp only [corrDescLe, ha, hb, Bool.false_eq_true, decide_eq_true_eq,
      or_true, true_or]
  exact le_total (skey y) (skey x)

theorem corrDescLe_trans (a b c : CorrRow) (h1 : corrDescLe a b = true)
    (h2 : corrDescLe b c = true) : corrDescLe a c = true := by
  rcases ha : a.corr with _ | x <;> rcases hb : b.corr with _ | y <;>
    rcases hc : c.corr with _ | z <;>
    simp only [corrDescLe, ha, hb, hc, Bool.false_eq_true,
      decide_eq_true_eq] at h1 h2 ⊢
  exact le_trans h2 h1

theorem corrAfter_of_corrDescLe {a b : CorrRow}
    (hwa : ∀ x, a.corr = some x → 0 < x.2)
    (hwb : ∀ x, b.corr = some x → 0 < x.2)
    (h : corrDescLe a b = true) : corrAfter a b := by
  rcases ha : a.corr with _ | x <;> rcases hb : b.corr with _ | y <;>
    simp only [corrDescLe, corrAfter, ha, hb, Bool.false_eq_true,
      decide_eq_true_eq] at h ⊢
  exact toR_le_of_skey_le y x (hwb y hb) (hwa x ha) h

theorem corrRows_wf {data : List Row} {name : String} {minCommon : ℕ}
    {r : CorrRow} (h : r ∈ corrRows data name minCommon) :
    ∀ x, r.corr = some x → 0 < x.2 := by
  rcases List.mem_filterMap.mp h with ⟨oa, _, hsome⟩
  rcases corrRowFor_some hsome with ⟨_, hcorr, _, _⟩
  intro x hx
  rcases x with ⟨q, d⟩
  rw [hcorr] at hx
  exact pearson_wf hx

theorem corrRowFor_isSome {data : List Row} {name : String} {minCommon : ℕ}
    {oa : String} :
    (corrRowFor data name minCommon oa).isSome = true ↔
      minCommon ≤ (commonPairs data name oa).length := by
  unfold corrRowFor
  split_ifs with h
  · simp [h]
  · simp [h]

theorem countP_attendee_filterMap (f : String → Option CorrRow)
    (hf : ∀ x r, f x = some r → r.attendee = x) :
    ∀ (others : List String), others.Nodup → ∀ oa : String,
    (others.filterMap f).countP (fun r => decide (r.attendee = oa))
      = if oa ∈ others ∧ (f oa).isSome then 1 else 0 := by
  intro others
  induction others with
  | nil => intro _ oa; simp
  | cons x rest ih =>
    intro hnd oa
    rw [List.nodup_cons] at hnd
    rw [List.filterMap_cons]
    rcases hfx : f x with _ | r
    · rw [ih hnd.2 oa]
      by_cases hox : oa = x
      · subst hox
        simp [hfx]
      · by_cases hor : oa ∈ rest ∧ (f oa).isSome
        · rw [if_pos hor, if_pos ⟨List.mem_cons_of_mem x hor.1, hor.2⟩]
        · rw [if_neg hor, if_neg (fun hh => hor
            ⟨(List.mem_cons.mp hh.1).resolve_left hox, hh.2⟩)]
    · rw [List.countP_cons, ih hnd.2 oa]
      have hrx := hf x r hfx
      by_cases hox : oa = x
      · subst hox
        rw [if_pos (decide_eq_true (by rw [hrx]) :
          decide (r.attendee = oa) = true)]
        rw [if_neg (fun hh => hnd.1 hh.1),
          if_pos ⟨List.mem_cons_self oa rest, by rw [hfx]; rfl⟩]
      · have hpr : ¬(decide (r.attendee = oa) = true) := by
          rw [decide_eq_true_eq, hrx]
          exact fun hh => hox hh.symm
        rw [if_neg hpr, Nat.add_zero]
        by_cases hor : oa ∈ rest ∧ (f oa).isSome
        · rw [if_pos hor, if_pos ⟨List.mem_cons_of_mem x hor.1, hor.2⟩]
        · rw [if_neg hor, if_neg (fun hh => hor
            ⟨(List.mem_cons.mp hh.1).resolve_left hox, hh.2⟩)]

/-- Claim C6: the correlation output has exactly one row per other person
whose common-whisky overlap (inner-join size) reaches the minimum and none
below it; each row carries the Pearson correlation (in the exact
representation of `pearson`) and the overlap count of its person; and the
rows are sorted descending by the real correlation value, NaN rows last. -/
theorem c6_correlations (data : List Row) (name : String) (minCommon : ℕ) :
    (∀ oa : String, oa ∈ otherAttendees data name ↔
      (oa ≠ name ∧ ∃ r ∈ data, r.attendee = oa)) ∧
    (∀ oa : String,
      ((calculate_attendee_correlations data name minCommon).getD []).countP
        (fun r => decide (r.attendee = oa))
      = if oa ∈ otherAttendees data name ∧
          minCommon ≤ (commonPairs data name oa).length then 1 else 0) ∧
    (∀ r ∈ (calculate_attendee_correlations data name minCommon).getD [],
      r.corr = pearson (commonPairs data name r.attendee) ∧
      r.common = (commonPairs data name r.attendee).length ∧
      minCommon ≤ (commonPairs data name r.attendee).length) ∧
    ((calculate_attendee_correlations data name minCommon).getD []).Pairwise
      corrAfter := by
  refine ⟨?_, ?_, ?_, ?_⟩
  · intro oa
    unfold otherAttendees
    rw [mem_dedupFirst]
    constructor
    · intro h
      rcases List.mem_map.mp h with ⟨r, hr, rfl⟩
      rcases List.mem_filter.mp hr with ⟨hrd, hdec⟩
      exact ⟨of_decide_eq_true hdec, r, hrd, rfl⟩
    · rintro ⟨hne, r, hrd, hattr⟩
      exact List.mem_map.mpr ⟨r, List.mem_filter.mpr
        ⟨hrd, decide_eq_true (by rw [hattr]; exact hne)⟩, hattr⟩
  · intro oa
    unfold calculate_attendee_correlations
    by_cases hemp : (corrRows data name minCommon).isEmpty = true
    · rw [if_pos hemp, Option.getD_none, List.countP_nil]
      by_cases hq : oa ∈ otherAttendees data name ∧
          minCommon ≤ (commonPairs data name oa).length
      · exfalso
        have hsome : corrRowFor data name minCommon oa
            = some ⟨oa, pearson (commonPairs data name oa),
                (commonPairs data name oa).length⟩ := by
          unfold corrRowFor
          rw [if_pos hq.2]
        have hmem : (⟨oa, pearson (commonPairs data name oa),
            (commonPairs data name oa).length⟩ : CorrRow)
              ∈ corrRows data name minCommon :=
          List.mem_filterMap.mpr ⟨oa, hq.1, hsome⟩
        rw [List.isEmpty_iff] at hemp
        rw [hemp] at hmem
        cases hmem
      · rw [if_neg hq]
    · rw [if_neg hemp, Option.getD_some,
        (perm_sortBy corrDescLe (corrRows data name minCommon)).countP_eq]
      unfold corrRows
      rw [countP_attendee_filterMap (corrRowFor data name minCommon)
        (fun x r h => (corrRowFor_some h).1) (otherAttendees data name)
        (nodup_dedupFirst _) oa]
      simp only [corrRowFor_isSome]
  · intro r hr
    unfold calculate_attendee_correlations at hr
    split_ifs at hr with hemp
    · cases hr
    · rw [Option.getD_some] at hr
      rcases List.mem_filterMap.mp (mem_sortBy.mp hr) with ⟨oa, _, hsome⟩
      rcases corrRowFor_some hsome with ⟨hatt, hcorr, hcommon, hq⟩
      rw [hatt]
      exact ⟨hcorr, hcommon, hq⟩
  · unfold calculate_attendee_correlations
    split_ifs with hemp
    · exact List.Pairwise.nil
    · rw [Option.getD_some]
      have hsorted := sorted_sortBy corrDescLe corrDescLe_total
        corrDescLe_trans (corrRows data name minCommon)
      refine List.Pairwise.imp_of_mem ?_ hsorted
      intro a b ha hb hab
      exact corrAfter_of_corrDescLe (corrRows_wf (mem_sortBy.mp ha))
        (corrRows_wf (mem_sortBy.mp hb)) hab

end Whisky
